import Mathlib

/-!
# Cherry: the hand-rolled TLS handshake layer (`src/pkg/tls/tls.go`)

A shallow embedding of the ClientHello inspector and of the server-side
handshake message builders, followed by the properties established for them.

Conventions of the embedding:

* a Go `byte`/`uint8` is a `Fin 256`, a Go `uint16` is a `Fin 65536`; every
  conversion `uint8(x)`, `uint16(x)` is an explicit reduction modulo `2^8`,
  `2^16`;
* a Go `string` or `[]byte` is a `List Byte`;
* an indexing or slicing expression that Go would abort with a run-time panic
  makes the embedded function return `.error fault`; a normal return is
  `.ok result`.
-/

namespace Cherry.TLS

/-- A Go `byte` (`uint8`). -/
abbrev Byte := Fin 256

/-- A Go `uint16`. -/
abbrev Word16 := Fin 65536

/-- The conversion `uint8(x)`: truncation to the low 8 bits. -/
def uint8 (x : Nat) : Byte := ⟨x % 256, Nat.mod_lt x (by decide)⟩

/-- The conversion `uint16(x)`: truncation to the low 16 bits. -/
def uint16 (x : Nat) : Word16 := ⟨x % 65536, Nat.mod_lt x (by decide)⟩

/-- The run-time panics of Go that the embedded code can raise. -/
inductive Fault where
  | indexOutOfRange
  | sliceBoundsOutOfRange
  deriving DecidableEq, Repr

/-- The index expression `buf[i]` read as a value; it aborts when `i` is
outside the buffer. -/
def byteAt (buf : List Byte) (i : Nat) : Except Fault Byte :=
  match buf[i]? with
  | some v => .ok v
  | none => .error .indexOutOfRange

/-! ## Wire constants (tls.go, lines 10-66) -/

def TLS_REC_TYPE_CHANGE_CIPHER_SPEC : Byte := 0x14
def TLS_REC_TYPE_HANDSHAKE : Byte := 0x16
def TLS_VERSION_SSL_3_0 : Word16 := 0x0300
def TLS_VERSION_TLS_1_0 : Word16 := 0x0301
def TLS_VERSION_TLS_1_1 : Word16 := 0x0302
def TLS_VERSION_TLS_1_2 : Word16 := 0x0303
def TLS_HANDSHAKE_CLIENT_HELLO : Byte := 0x01
def TLS_HANDSHAKE_SERVER_HELLO : Byte := 0x02
def TLS_HANDSHAKE_CERTIFICATE : Byte := 0x0b
def TLS_HANDSHAKE_SERVER_DONE : Byte := 0x0e
def TLS_CIPHER_SUITE_RSA_WITH_AES_128_CBC_SHA : Word16 := 0x002f
def TLS_CIPHER_SUITE_RSA_WITH_AES_256_CBC_SHA : Word16 := 0x0035
def TLS_CIPHER_SUITE_RSA_WITH_AES_128_CBC_SHA256 : Word16 := 0x003c
def TLS_CIPHER_SUITE_RSA_WITH_AES_256_CBC_SHA256 : Word16 := 0x003d

/-! ## ClientHello inspector (tls.go, lines 68-97) -/

/-- Go function `IsTLSClientHello` (tls.go 68-72). The `&&` chain short-circuits, so the
two index expressions are evaluated only when `len(payload) >= 6`. -/
def IsTLSClientHello (payload : List Byte) : Bool :=
  if h : 6 ≤ payload.length then
    payload[0] == TLS_REC_TYPE_HANDSHAKE && payload[5] == TLS_HANDSHAKE_CLIENT_HELLO
  else
    false

/-- The expression `(uint16(hi) << 8) | uint16(lo)` of tls.go 84 and 92: the
shift is a `uint16` shift, hence reduced modulo `2^16`. -/
def word16Of (hi lo : Byte) : Word16 :=
  uint16 (((hi.val <<< 8) % 65536) ||| lo.val)

/-- The `for c := 0; c < int(cipherSuitesLen); c++` loop of tls.go 91-95, with
`count` the number of iterations still to run, `offset` the cursor and
`ciphers` the slice built so far. Each iteration reads `payload[offset]` and
`payload[offset + 1]`; a read outside the buffer aborts. -/
def readCiphers (payload : List Byte) : Nat → Nat → List Word16 → Except Fault (List Word16)
  | 0, _, ciphers => .ok ciphers
  | count + 1, offset, ciphers => do
      let hi ← byteAt payload offset
      let lo ← byteAt payload (offset + 1)
      readCiphers payload count (offset + 2) (ciphers ++ [word16Of hi lo])

/-- Go function `GetCipherSuitesFromClientHello` (tls.go 74-97). -/
def GetCipherSuitesFromClientHello (payload : List Byte) : Except Fault (List Word16) :=
  if !IsTLSClientHello payload || payload.length ≤ 37 then
    .ok []
  else do
    let offset := 43
    let sidLen ← byteAt payload offset
    let offset := if sidLen.val > 0 then offset + sidLen.val else offset
    let offset := offset + 1
    let hi ← byteAt payload offset
    let lo ← byteAt payload (offset + 1)
    let cipherSuitesLen := word16Of hi lo
    let cipherSuitesLen := if cipherSuitesLen.val > 0 then cipherSuitesLen.val / 2 else cipherSuitesLen.val
    let offset := offset + 2
    readCiphers payload cipherSuitesLen offset []

/-! ## Buffer primitives used by the builders -/

/-- The allocation `make([]byte, n)`: `n` zero bytes. -/
def makeBytes (n : Nat) : List Byte := List.replicate n 0

/-- The assignment `buf[i] = v`; it aborts when `i` is outside the buffer. -/
def setByte (buf : List Byte) (i : Nat) (v : Byte) : Except Fault (List Byte) :=
  if i < buf.length then .ok (buf.set i v) else .error .indexOutOfRange

/-- The call `copy(dst[off:], src)`: the slice expression aborts when `off`
exceeds `len(dst)`; otherwise `min(len(dst) - off, len(src))` bytes are
copied and the length of `dst` is unchanged. -/
def copyAt (dst : List Byte) (off : Nat) (src : List Byte) : Except Fault (List Byte) :=
  if off ≤ dst.length then
    .ok (dst.take off ++ src.take (min (dst.length - off) src.length)
      ++ dst.drop (off + min (dst.length - off) src.length))
  else
    .error .sliceBoundsOutOfRange

/-! ## ServerHello builder (tls.go, lines 99-143) -/

/-- Go function `MkServerHello` (tls.go 99-143). The two reads of the environment are
arguments: `unixNow` is the value of `time.Now().Unix()` and `rndBytes` is the
content of the 28-byte slice `rndBytes` after `rand.Read(rndBytes)`. -/
def MkServerHello (tlsVersion : Int) (cipherSuite : Word16) (unixNow : Int)
    (rndBytes : List Byte) : Except Fault (List Byte) := do
  let helloBuf := makeBytes 48
  let helloBuf ← setByte helloBuf 0 TLS_REC_TYPE_HANDSHAKE
  let tlsTemp : Word16 :=
    if tlsVersion = 10 then TLS_VERSION_TLS_1_0
    else if tlsVersion = 11 then TLS_VERSION_TLS_1_1
    else if tlsVersion = 12 then TLS_VERSION_TLS_1_2
    else if tlsVersion = 30 then TLS_VERSION_SSL_3_0
    else TLS_VERSION_SSL_3_0
  let helloBuf ← setByte helloBuf 1 (uint8 (tlsTemp.val >>> 8))
  let helloBuf ← setByte helloBuf 2 (uint8 (tlsTemp.val &&& 0xff))
  let helloBuf ← setByte helloBuf 3 0x53
  let helloBuf ← setByte helloBuf 4 TLS_HANDSHAKE_SERVER_HELLO
  let helloBuf ← setByte helloBuf 5 0x00
  let helloBuf ← setByte helloBuf 6 0x00
  let helloBuf ← setByte helloBuf 7 0x31
  let b1 ← byteAt helloBuf 1
  let helloBuf ← setByte helloBuf 8 b1
  let b2 ← byteAt helloBuf 2
  let helloBuf ← setByte helloBuf 9 b2
  let unixTime : Nat := (unixNow % 4294967296).toNat
  let helloBuf ← setByte helloBuf 10 (uint8 (unixTime >>> 24))
  let helloBuf ← setByte helloBuf 11 (uint8 (unixTime >>> 16))
  let helloBuf ← setByte helloBuf 12 (uint8 (unixTime >>> 8))
  let helloBuf ← setByte helloBuf 13 (uint8 (unixTime &&& 0xff))
  let helloBuf ← copyAt helloBuf 14 rndBytes
  let helloBuf ← setByte helloBuf 42 0x00
  let helloBuf ← setByte helloBuf 43 (uint8 (cipherSuite.val >>> 8))
  let helloBuf ← setByte helloBuf 44 (uint8 (cipherSuite.val &&& 0xff))
  let helloBuf ← setByte helloBuf 45 0x00
  let helloBuf ← setByte helloBuf 46 0x00
  let helloBuf ← setByte helloBuf 47 0x00
  pure helloBuf

/-! ## Certificate builder (tls.go, lines 145-182) -/

/-- The loop `for _, c := range certData { certBuf[offset] = c; offset++ }`
of tls.go 177-180. -/
def writeCert : List Byte → Nat → List Byte → Except Fault (List Byte)
  | certBuf, _, [] => .ok certBuf
  | certBuf, offset, c :: rest => do
      let certBuf ← setByte certBuf offset c
      writeCert certBuf (offset + 1) rest

/-- Go function `MkServerCertificateExchange` (tls.go 145-182). `certLen`, `recLen` and
the allocation size `5 + recLen` are `uint16` expressions, hence reduced
modulo `2^16`. -/
def MkServerCertificateExchange (tlsVersion : Int) (certData : List Byte) :
    Except Fault (List Byte) := do
  let certLen : Word16 := uint16 certData.length
  let recLen : Word16 := uint16 (7 + certLen.val)
  let certBuf := makeBytes (uint16 (5 + recLen.val)).val
  let certBuf ← setByte certBuf 0 TLS_REC_TYPE_HANDSHAKE
  let tlsTemp : Word16 :=
    if tlsVersion = 10 then TLS_VERSION_TLS_1_0
    else if tlsVersion = 11 then TLS_VERSION_TLS_1_1
    else if tlsVersion = 12 then TLS_VERSION_TLS_1_2
    else if tlsVersion = 30 then TLS_VERSION_SSL_3_0
    else TLS_VERSION_SSL_3_0
  let certBuf ← setByte certBuf 1 (uint8 (tlsTemp.val >>> 8))
  let certBuf ← setByte certBuf 2 (uint8 (tlsTemp.val &&& 0xff))
  let certBuf ← setByte certBuf 3 (uint8 (recLen.val >>> 8))
  let certBuf ← setByte certBuf 4 (uint8 (recLen.val &&& 0xff))
  let certBuf ← setByte certBuf 5 TLS_HANDSHAKE_CERTIFICATE
  let certBuf ← setByte certBuf 6 0
  let certBuf ← setByte certBuf 7 (uint8 ((uint16 (certLen.val + 3)).val >>> 8))
  let certBuf ← setByte certBuf 8 (uint8 ((uint16 (certLen.val + 3)).val &&& 0xff))
  let certBuf ← setByte certBuf 9 0
  let certBuf ← setByte certBuf 10 (uint8 (certLen.val >>> 8))
  let certBuf ← setByte certBuf 11 (uint8 (certLen.val &&& 0xff))
  let offset := 12
  writeCert certBuf offset certData

/-! ## ServerHelloDone and ChangeCipherSpec builders (tls.go, lines 184-237) -/

/-- Go function `MkServerHelloDone` (tls.go 184-211). -/
def MkServerHelloDone (tlsVersion : Int) : Except Fault (List Byte) := do
  let doneBuf := makeBytes 9
  let doneBuf ← setByte doneBuf 0 TLS_REC_TYPE_HANDSHAKE
  let tlsTemp : Word16 :=
    if tlsVersion = 10 then TLS_VERSION_TLS_1_0
    else if tlsVersion = 11 then TLS_VERSION_TLS_1_1
    else if tlsVersion = 12 then TLS_VERSION_TLS_1_2
    else if tlsVersion = 30 then TLS_VERSION_SSL_3_0
    else TLS_VERSION_SSL_3_0
  let doneBuf ← setByte doneBuf 1 (uint8 (tlsTemp.val >>> 8))
  let doneBuf ← setByte doneBuf 2 (uint8 (tlsTemp.val &&& 0xff))
  let doneBuf ← setByte doneBuf 3 0
  let doneBuf ← setByte doneBuf 4 4
  let doneBuf ← setByte doneBuf 5 TLS_HANDSHAKE_SERVER_DONE
  let doneBuf ← setByte doneBuf 6 0
  let doneBuf ← setByte doneBuf 7 0
  let doneBuf ← setByte doneBuf 8 0
  pure doneBuf

/-- Go function `MkChangeChiperSpec` (tls.go 213-237). -/
def MkChangeChiperSpec (tlsVersion : Int) : Except Fault (List Byte) := do
  let changeBuf := makeBytes 6
  let changeBuf ← setByte changeBuf 0 TLS_REC_TYPE_CHANGE_CIPHER_SPEC
  let tlsTemp : Word16 :=
    if tlsVersion = 10 then TLS_VERSION_TLS_1_0
    else if tlsVersion = 11 then TLS_VERSION_TLS_1_1
    else if tlsVersion = 12 then TLS_VERSION_TLS_1_2
    else if tlsVersion = 30 then TLS_VERSION_SSL_3_0
    else TLS_VERSION_SSL_3_0
  let changeBuf ← setByte changeBuf 1 (uint8 (tlsTemp.val >>> 8))
  let changeBuf ← setByte changeBuf 2 (uint8 (tlsTemp.val &&& 0xff))
  let changeBuf ← setByte changeBuf 3 0
  let changeBuf ← setByte changeBuf 4 1
  let changeBuf ← setByte changeBuf 5 1
  pure changeBuf

/-! ## Finished builder (tls.go, lines 239-297) -/

/-- The second loop over `previousPackets` (tls.go 255-258), with `totalSize`
the running offset: `copy(dataBuf[totalSize:], p); totalSize += len(p)`. -/
def copyPackets : List Byte → Nat → List (List Byte) → Except Fault (List Byte)
  | dataBuf, _, [] => .ok dataBuf
  | dataBuf, totalSize, p :: rest => do
      let dataBuf ← copyAt dataBuf totalSize p
      copyPackets dataBuf (totalSize + p.length) rest

/-- The hash input `dataBuf` built by tls.go 246-258: the first loop sums the
packet lengths, the buffer is allocated, the second loop fills it. -/
def finishedDataBuf (previousPackets : List (List Byte)) : Except Fault (List Byte) :=
  let totalSize := previousPackets.foldl (fun acc p => acc + p.length) 0
  let dataBuf := makeBytes totalSize
  let totalSize := 0
  copyPackets dataBuf totalSize previousPackets

/-- The digest `dataBufHash` computed by the `switch cipherSuite` of tls.go
259-274. The slice starts as `nil` (the empty list). A Go `case` does not fall
through, so the two `case` clauses with an empty body leave it untouched.
`sha1Sum` and `sha256Sum` stand for `sha1.Sum` and `sha256.Sum256`. -/
def finishedDigest (sha1Sum sha256Sum : List Byte → List Byte) (cipherSuite : Word16)
    (dataBuf : List Byte) : Except Fault (List Byte) :=
  if cipherSuite = TLS_CIPHER_SUITE_RSA_WITH_AES_128_CBC_SHA then
    .ok []
  else if cipherSuite = TLS_CIPHER_SUITE_RSA_WITH_AES_256_CBC_SHA then
    copyAt (makeBytes 20) 0 (sha1Sum dataBuf)
  else if cipherSuite = TLS_CIPHER_SUITE_RSA_WITH_AES_128_CBC_SHA256 then
    .ok []
  else if cipherSuite = TLS_CIPHER_SUITE_RSA_WITH_AES_256_CBC_SHA256 then
    copyAt (makeBytes 32) 0 (sha256Sum dataBuf)
  else
    .ok []

/-- Go function `MkServerFinished` (tls.go 239-297). The variadic `previousPackets` is a
list of buffers; `preMasterKey` is accepted and never read. -/
def MkServerFinished (sha1Sum sha256Sum : List Byte → List Byte) (tlsVersion : Int)
    (cipherSuite : Word16) (_preMasterKey : List Byte)
    (previousPackets : List (List Byte)) : Except Fault (List Byte) :=
  if cipherSuite ≠ TLS_CIPHER_SUITE_RSA_WITH_AES_128_CBC_SHA ∧
     cipherSuite ≠ TLS_CIPHER_SUITE_RSA_WITH_AES_256_CBC_SHA ∧
     cipherSuite ≠ TLS_CIPHER_SUITE_RSA_WITH_AES_128_CBC_SHA256 ∧
     cipherSuite ≠ TLS_CIPHER_SUITE_RSA_WITH_AES_256_CBC_SHA256 then
    .ok (makeBytes 0)
  else do
    let dataBuf ← finishedDataBuf previousPackets
    let _dataBufHash ← finishedDigest sha1Sum sha256Sum cipherSuite dataBuf
    let encDataBufHash := makeBytes 0
    let finBuf := makeBytes (4 + encDataBufHash.length)
    let finBuf ← setByte finBuf 0 TLS_REC_TYPE_HANDSHAKE
    let tlsTemp : Word16 :=
      if tlsVersion = 10 then TLS_VERSION_TLS_1_0
      else if tlsVersion = 11 then TLS_VERSION_TLS_1_1
      else if tlsVersion = 12 then TLS_VERSION_TLS_1_2
      else if tlsVersion = 30 then TLS_VERSION_SSL_3_0
      else TLS_VERSION_SSL_3_0
    let finBuf ← setByte finBuf 1 (uint8 (tlsTemp.val >>> 8))
    let finBuf ← setByte finBuf 2 (uint8 (tlsTemp.val &&& 0xff))
    pure finBuf

/-- The digest `MkServerFinished` computes for a transcript (tls.go 246-274):
the hash input is built from `previousPackets`, then the `switch cipherSuite`
runs on it. -/
def finishedTranscriptDigest (sha1Sum sha256Sum : List Byte → List Byte)
    (cipherSuite : Word16) (previousPackets : List (List Byte)) :
    Except Fault (List Byte) := do
  let dataBuf ← finishedDataBuf previousPackets
  finishedDigest sha1Sum sha256Sum cipherSuite dataBuf

/-! ## Specification-side vocabulary -/

/-- Wire version of an abstract version selector, as the specification
tabulates it: 10, 11, 12 and 30 select TLS 1.0, 1.1, 1.2 and SSL 3.0; every
other integer selects SSL 3.0. -/
def wireVersion (v : Int) : Nat :=
  if v = 10 then 0x0301 else if v = 11 then 0x0302 else if v = 12 then 0x0303
  else if v = 30 then 0x0300 else 0x0300

/-- The four cipher suites the Finished builder accepts. -/
def SupportedSuite (c : Word16) : Prop :=
  c = TLS_CIPHER_SUITE_RSA_WITH_AES_128_CBC_SHA ∨
  c = TLS_CIPHER_SUITE_RSA_WITH_AES_256_CBC_SHA ∨
  c = TLS_CIPHER_SUITE_RSA_WITH_AES_128_CBC_SHA256 ∨
  c = TLS_CIPHER_SUITE_RSA_WITH_AES_256_CBC_SHA256

instance : DecidablePred SupportedSuite := fun c => by
  unfold SupportedSuite
  infer_instance

/-- Big-endian 16-bit value held at positions `i`, `i + 1` of a buffer (a
position outside the buffer counts as `0`; the statements below only use it
on positions inside the buffer). -/
def be16At (b : List Byte) (i : Nat) : Nat :=
  (b.getD i 0).val * 256 + (b.getD (i + 1) 0).val

/-- Two-byte big-endian encoding of a number below `2^16`. -/
def be16 (x : Nat) : List Byte := [uint8 (x / 256), uint8 (x % 256)]

/-- Three-byte big-endian encoding of a number below `2^24`. -/
def be24 (x : Nat) : List Byte := [uint8 (x / 65536), uint8 (x / 256), uint8 (x % 256)]

/-- Four-byte big-endian encoding of a number below `2^32`. -/
def be32 (x : Nat) : List Byte :=
  [uint8 (x / 16777216), uint8 (x / 65536), uint8 (x / 256), uint8 (x % 256)]

/-- Session-id length byte of a ClientHello-shaped buffer: byte 43. -/
def sessionIdLen (b : List Byte) : Nat := (b.getD 43 0).val

/-- Number of offered suites declared by a ClientHello-shaped buffer: half of
the big-endian 16-bit value that follows the session id. -/
def declaredCount (b : List Byte) : Nat := be16At b (44 + sessionIdLen b) / 2

/-- A ClientHello-shaped buffer: 43 leading bytes, the session-id length, the
session id, the byte length of the suite list, the suites, trailing bytes. -/
def clientHelloBuffer (pre sid : List Byte) (suites : List Word16) (trailing : List Byte) :
    List Byte :=
  pre ++ [uint8 sid.length] ++ sid ++ be16 (2 * suites.length)
    ++ suites.flatMap (fun c => be16 c.val) ++ trailing

/-- Size of the buffer `MkServerCertificateExchange` allocates for a
certificate of `n` bytes (tls.go 146-148): `certLen`, `recLen` and `5 + recLen`
are successive `uint16` values. -/
def certAllocSize (n : Nat) : Nat :=
  (uint16 (5 + (uint16 (7 + (uint16 n).val)).val)).val

/-- Body of the handshake message carried by a record that holds one
handshake message: what follows the 5-byte record header and the 4-byte
handshake header (type and 3-byte length). -/
def handshakeBody (record : List Byte) : List Byte := record.drop 9

/-! ## Sample inputs -/

/-- A 38-byte buffer that starts like a ClientHello record: byte 0 is `0x16`,
byte 5 is `0x01`, every other byte is zero. -/
def shortHello : List Byte := [0x16, 0, 0, 0, 0, 0x01] ++ List.replicate 32 0

/-- The 43 leading bytes of a ClientHello-shaped buffer: byte 0 is `0x16`,
byte 5 is `0x01`, the other bytes are arbitrary. -/
def samplePre : List Byte := [0x16, 3, 1, 0, 0x2f, 0x01] ++ List.replicate 37 0xab

/-- A ClientHello-shaped buffer with a 2-byte session id and a declared suite
list length of 5 bytes (odd): two suites `0x002f`, `0x0035` and one more byte. -/
def sampleHello : List Byte :=
  samplePre ++ [2, 9, 9, 0, 5, 0x00, 0x2f, 0x00, 0x35, 0xff]

/-- The 28 bytes delivered by the random source in the sample runs. -/
def sampleRnd : List Byte := List.replicate 28 0xaa

/-- A stand-in for a hash function in the sample runs. -/
def sampleHash (_ : List Byte) : List Byte := []

/-- A certificate blob of 65524 bytes, the shortest one for which
`7 + certLen + 5` no longer fits in 16 bits. -/
def longCert : List Byte := List.replicate 65524 0x5a

/-- A 4-byte certificate blob for the sample runs. -/
def sampleCert : List Byte := [0xde, 0xad, 0xbe, 0xef]

/-- A stand-in for `sha1.Sum` in the sample runs: 20 bytes. -/
def sampleSha1 (_ : List Byte) : List Byte := List.replicate 20 0x11

/-- A stand-in for `sha256.Sum256` in the sample runs: 32 bytes. -/
def sampleSha256 (_ : List Byte) : List Byte := List.replicate 32 0x22

end Cherry.TLS

/-!
# Cherry: the HTTP request router (`src/reqtraps/reqtraps.go`)

Conventions of the embedding: the payload is given as the sequence of runes
that `for _, h := range httpPayload` yields; `httpMethodPart += string(h)`
appends that rune, and `strings.HasPrefix` against a pattern of ASCII
characters compares the leading runes.
-/

namespace Cherry.Reqtraps

/-- The handler `GetRequestTrap` selects; each constructor stands for
`BuildRequestTrap` applied to the handler function of that name. -/
inductive Route where
  | GetJoin_Handle
  | GetBrief_Handle
  | GetTop_Handle
  | GetBanner_Handle
  | GetBody_Handle
  | GetExit_Handle
  | PostJoin_Handle
  | PostBanner_Handle
  | GetFind_Handle
  | PostFind_Handle
  | BadAssError_Handle
  deriving DecidableEq, Repr

/-- The loop of reqtraps.go 32-40 run on the runes still to read, with the
current values of `spaceNr` and `httpMethodPart`; a `break` returns the text
collected so far. -/
def scanMethodPart : List Char → Nat → List Char → List Char
  | [], _, httpMethodPart => httpMethodPart
  | h :: rest, spaceNr, httpMethodPart =>
      let spaceNr := if h = ' ' then spaceNr + 1 else spaceNr
      if h = '\n' ∨ h = '\r' ∨ spaceNr = 2 then
        httpMethodPart
      else
        scanMethodPart rest spaceNr (httpMethodPart ++ [h])

/-- Go function `strings.HasPrefix`. -/
def HasPrefix (s : List Char) (pattern : String) : Bool :=
  pattern.toList.isPrefixOf s

/-- The chain of prefix tests of reqtraps.go 42-72 on the marked text. -/
def selectRoute (httpMethodPart : List Char) : Route :=
  if HasPrefix httpMethodPart "GET /join$" then .GetJoin_Handle
  else if HasPrefix httpMethodPart "GET /brief$" then .GetBrief_Handle
  else if HasPrefix httpMethodPart "GET /top&" then .GetTop_Handle
  else if HasPrefix httpMethodPart "GET /banner&" then .GetBanner_Handle
  else if HasPrefix httpMethodPart "GET /body&" then .GetBody_Handle
  else if HasPrefix httpMethodPart "GET /exit&" then .GetExit_Handle
  else if HasPrefix httpMethodPart "POST /join$" then .PostJoin_Handle
  else if HasPrefix httpMethodPart "POST /banner&" then .PostBanner_Handle
  else if HasPrefix httpMethodPart "GET /find$" then .GetFind_Handle
  else if HasPrefix httpMethodPart "POST /find$" then .PostFind_Handle
  else .BadAssError_Handle

/-- Go function `GetRequestTrap` (reqtraps.go 29-73). -/
def GetRequestTrap (httpPayload : List Char) : Route :=
  let httpMethodPart := scanMethodPart httpPayload 0 []
  let httpMethodPart := httpMethodPart ++ "$".toList
  selectRoute httpMethodPart

/-! ## Specification-side vocabulary -/

/-- The ten route patterns. -/
def routePatterns : List String :=
  ["GET /join$", "GET /brief$", "GET /top&", "GET /banner&", "GET /body&", "GET /exit&",
    "POST /join$", "POST /banner&", "GET /find$", "POST /find$"]

/-- The text `m` is the method-and-path text of `payload`: the characters of
`payload` before its second space or its first CR or LF, whichever comes
first (all of `payload` when there is no such character). -/
def IsMethodPathText (m payload : List Char) : Prop :=
  ∃ rest, payload = m ++ rest ∧
    (∀ c ∈ m, c ≠ '\n' ∧ c ≠ '\r') ∧ m.count ' ' ≤ 1 ∧
    (rest = [] ∨ ∃ c tl, rest = c :: tl ∧
      (c = '\n' ∨ c = '\r' ∨ (c = ' ' ∧ m.count ' ' = 1)))

end Cherry.Reqtraps

namespace Cherry.TLS

/-! # Properties -/

/-! ## Arithmetic of the byte conversions -/

theorem word16Of_val (hi lo : Byte) : (word16Of hi lo).val = hi.val * 256 + lo.val := by
  have h1 := hi.isLt
  have h2 := lo.isLt
  have hs : hi.val <<< 8 = 2 ^ 8 * hi.val := by rw [Nat.shiftLeft_eq, Nat.mul_comm]
  have hor : 2 ^ 8 * hi.val ||| lo.val = 2 ^ 8 * hi.val + lo.val :=
    (Nat.mul_add_lt_is_or (by omega) hi.val).symm
  have hin : 2 ^ 8 * hi.val % 65536 = 2 ^ 8 * hi.val := Nat.mod_eq_of_lt (by omega)
  simp only [word16Of, uint16]
  rw [hs, hin, hor, Nat.mod_eq_of_lt (by omega)]
  omega

theorem word16Of_be16 (c : Word16) :
    word16Of (uint8 (c.val / 256)) (uint8 (c.val % 256)) = c := by
  apply Fin.ext
  rw [word16Of_val]
  have := c.isLt
  simp only [uint8]
  omega

/-! ## Reading bytes -/

theorem byteAt_of_lt (b : List Byte) (i : Nat) (h : i < b.length) :
    byteAt b i = .ok (b.getD i 0) := by
  simp [byteAt, List.getD, List.getElem?_eq_getElem h]

theorem byteAt_of_le (b : List Byte) (i : Nat) (h : b.length ≤ i) :
    byteAt b i = .error .indexOutOfRange := by
  simp [byteAt, List.getElem?_eq_none h]

theorem byteAt_append_cons (front : List Byte) (x : Byte) (back : List Byte) :
    byteAt (front ++ x :: back) front.length = .ok x := by
  have h : (front ++ x :: back)[front.length]? = some x := by
    rw [List.getElem?_append_right (Nat.le_refl _)]
    simp
  simp only [byteAt, h]

theorem byteAt_append_cons_cons (front : List Byte) (x y : Byte) (back : List Byte) :
    byteAt (front ++ x :: y :: back) (front.length + 1) = .ok y := by
  have h : front ++ x :: y :: back = (front ++ [x]) ++ y :: back := by simp
  have hl : front.length + 1 = (front ++ [x]).length := by simp
  rw [h, hl]
  exact byteAt_append_cons _ _ _

/-! ## ClientHello inspector -/

theorem isTLSClientHello_true_iff (b : List Byte) :
    IsTLSClientHello b = true ↔
      6 ≤ b.length ∧ b[0]? = some 0x16 ∧ b[5]? = some 0x01 := by
  unfold IsTLSClientHello
  by_cases h : 6 ≤ b.length
  · have h0 : 0 < b.length := by omega
    have h5 : 5 < b.length := by omega
    simp [h, List.getElem?_eq_getElem h0, List.getElem?_eq_getElem h5,
      TLS_REC_TYPE_HANDSHAKE, TLS_HANDSHAKE_CLIENT_HELLO]
  · simp [h]

/-- C1: `IsTLSClientHello b` holds exactly when `b` has at least 6 bytes, byte
0 is `0x16` and byte 5 is `0x01`; it is false on every buffer shorter than 6
bytes. -/
theorem isTLSClientHello_iff (b : List Byte) :
    (IsTLSClientHello b = true ↔
      6 ≤ b.length ∧ b[0]? = some 0x16 ∧ b[5]? = some 0x01) ∧
    (b.length < 6 → IsTLSClientHello b = false) := by
  refine ⟨isTLSClientHello_true_iff b, fun h => ?_⟩
  cases hb : IsTLSClientHello b with
  | false => rfl
  | true =>
    have := ((isTLSClientHello_true_iff b).mp hb).1
    omega

theorem readCiphers_flatMap (suites : List Word16) :
    ∀ (front back : List Byte) (acc : List Word16),
      readCiphers (front ++ suites.flatMap (fun c => be16 c.val) ++ back)
        suites.length front.length acc = .ok (acc ++ suites) := by
  induction suites with
  | nil => intro front back acc; simp [readCiphers]
  | cons c rest ih =>
    intro front back acc
    have hshape : front ++ (c :: rest).flatMap (fun c => be16 c.val) ++ back
        = front ++ uint8 (c.val / 256) :: uint8 (c.val % 256)
            :: (rest.flatMap (fun c => be16 c.val) ++ back) := by
      simp [be16]
    have hnext : front ++ (c :: rest).flatMap (fun c => be16 c.val) ++ back
        = (front ++ be16 c.val) ++ rest.flatMap (fun c => be16 c.val) ++ back := by
      simp [be16]
    have hlen : front.length + 2 = (front ++ be16 c.val).length := by simp [be16]
    have hi := byteAt_append_cons front (uint8 (c.val / 256))
      (uint8 (c.val % 256) :: (rest.flatMap (fun c => be16 c.val) ++ back))
    have lo := byteAt_append_cons_cons front (uint8 (c.val / 256)) (uint8 (c.val % 256))
      (rest.flatMap (fun c => be16 c.val) ++ back)
    rw [← hshape] at hi lo
    simp only [List.length_cons, readCiphers, hi, lo, bind, Except.bind]
    rw [hnext, hlen, ih, word16Of_be16]
    simp

theorem getD_append_cons (front : List Byte) (x : Byte) (back : List Byte) :
    (front ++ x :: back).getD front.length 0 = x := by
  have h : (front ++ x :: back)[front.length]? = some x := by
    rw [List.getElem?_append_right (Nat.le_refl _)]
    simp
  simp [List.getD, h]

theorem be16At_append (front : List Byte) (x y : Byte) (back : List Byte) :
    be16At (front ++ x :: y :: back) front.length = x.val * 256 + y.val := by
  have hx := getD_append_cons front x (y :: back)
  have hy := getD_append_cons (front ++ [x]) y back
  simp only [List.append_assoc, List.singleton_append, List.length_append,
    List.length_singleton] at hy
  simp only [be16At, hx, hy]

/-- Past its guard, `GetCipherSuitesFromClientHello` reads the session-id
length at byte 43, the list length right after the session id, and then runs
the suite loop from offset `46 + s`. -/
theorem getCipherSuites_unfold (b : List Byte) (hHello : IsTLSClientHello b = true)
    (hLen : 37 < b.length) (hFit : 46 + sessionIdLen b ≤ b.length) :
    GetCipherSuitesFromClientHello b
      = readCiphers b (declaredCount b) (46 + sessionIdLen b) [] := by
  have h43 := byteAt_of_lt b 43 (by omega)
  have hoff : (if (b.getD 43 0).val > 0 then 43 + (b.getD 43 0).val else 43) + 1
      = 44 + sessionIdLen b := by
    unfold sessionIdLen
    split <;> omega
  have hhi := byteAt_of_lt b (44 + sessionIdLen b) (by omega)
  have hlo := byteAt_of_lt b (44 + sessionIdLen b + 1) (by omega)
  have hcnt : (if (word16Of (b.getD (44 + sessionIdLen b) 0)
        (b.getD (44 + sessionIdLen b + 1) 0)).val > 0
      then (word16Of (b.getD (44 + sessionIdLen b) 0)
        (b.getD (44 + sessionIdLen b + 1) 0)).val / 2
      else (word16Of (b.getD (44 + sessionIdLen b) 0)
        (b.getD (44 + sessionIdLen b + 1) 0)).val) = declaredCount b := by
    rw [word16Of_val]
    unfold declaredCount be16At
    split <;> omega
  have hguard : (!IsTLSClientHello b || decide (b.length ≤ 37)) = false := by
    simp [hHello, hLen]
  simp only [GetCipherSuitesFromClientHello, hguard, h43, bind, Except.bind, hoff, hhi, hlo,
    hcnt]
  have : 44 + sessionIdLen b + 2 = 46 + sessionIdLen b := by omega
  simp [this]

theorem readCiphers_range (b : List Byte) :
    ∀ (n off : Nat) (acc : List Word16), off + 2 * n ≤ b.length →
      readCiphers b n off acc = .ok (acc ++ (List.range n).map
        (fun i => word16Of (b.getD (off + 2 * i) 0) (b.getD (off + 2 * i + 1) 0))) := by
  intro n
  induction n with
  | zero => intro off acc _; simp [readCiphers]
  | succ n ih =>
    intro off acc h
    have hhi := byteAt_of_lt b off (by omega)
    have hlo := byteAt_of_lt b (off + 1) (by omega)
    simp only [readCiphers, hhi, hlo, bind, Except.bind]
    rw [ih (off + 2) _ (by omega), List.range_succ_eq_map]
    simp only [List.map_cons, List.map_map, List.append_assoc, List.singleton_append,
      Nat.mul_zero, Nat.add_zero]
    congr 3
    apply List.map_congr_left
    intro i _
    simp only [Function.comp]
    have e1 : off + 2 + 2 * i = off + 2 * (i + 1) := by omega
    rw [e1]

/-- C2: on a ClientHello-shaped buffer (byte 0 = 0x16, byte 5 = 0x01, byte 43
the session-id length, then the session id, the big-endian byte length of the
suite list, the suites in big-endian, then any trailing bytes) the inspector
answers true and the extractor returns exactly the offered suites, in order,
for every session-id length up to 255. -/
theorem clientHello_roundtrip (pre sid : List Byte) (suites : List Word16)
    (trailing : List Byte) (hpre : pre.length = 43) (h0 : pre[0]? = some 0x16)
    (h5 : pre[5]? = some 0x01) (hsid : sid.length ≤ 255)
    (hsuites : 2 * suites.length ≤ 65535) :
    IsTLSClientHello (clientHelloBuffer pre sid suites trailing) = true ∧
    GetCipherSuitesFromClientHello (clientHelloBuffer pre sid suites trailing)
      = .ok suites := by
  have hlen : (clientHelloBuffer pre sid suites trailing).length
      = 46 + sid.length + (suites.flatMap (fun c => be16 c.val)).length
        + trailing.length := by
    simp [clientHelloBuffer, be16, hpre]
    omega
  have hHello : IsTLSClientHello (clientHelloBuffer pre sid suites trailing) = true := by
    rw [isTLSClientHello_true_iff]
    refine ⟨by omega, ?_, ?_⟩
    · simp only [clientHelloBuffer, List.append_assoc]
      rw [List.getElem?_append_left (by omega)]
      exact h0
    · simp only [clientHelloBuffer, List.append_assoc]
      rw [List.getElem?_append_left (by omega)]
      exact h5
  have hs : sessionIdLen (clientHelloBuffer pre sid suites trailing) = sid.length := by
    have hshape : clientHelloBuffer pre sid suites trailing
        = pre ++ uint8 sid.length :: (sid ++ be16 (2 * suites.length)
            ++ suites.flatMap (fun c => be16 c.val) ++ trailing) := by
      simp [clientHelloBuffer]
    unfold sessionIdLen
    rw [hshape, ← hpre, getD_append_cons]
    simp only [uint8]
    omega
  have hn : declaredCount (clientHelloBuffer pre sid suites trailing) = suites.length := by
    have hshape : clientHelloBuffer pre sid suites trailing
        = (pre ++ [uint8 sid.length] ++ sid) ++ uint8 (2 * suites.length / 256)
            :: uint8 (2 * suites.length % 256)
            :: (suites.flatMap (fun c => be16 c.val) ++ trailing) := by
      simp [clientHelloBuffer, be16]
    have hl : (pre ++ [uint8 sid.length] ++ sid).length = 44 + sid.length := by
      simp only [List.length_append, List.length_singleton, hpre]
    unfold declaredCount
    rw [hs, hshape, ← hl, be16At_append]
    simp only [uint8]
    omega
  refine ⟨hHello, ?_⟩
  rw [getCipherSuites_unfold _ hHello (by omega) (by omega), hs, hn]
  have := readCiphers_flatMap suites (pre ++ [uint8 sid.length] ++ sid
    ++ be16 (2 * suites.length)) trailing []
  simp only [List.length_append, hpre, List.length_singleton, be16, List.length_cons,
    List.length_nil, List.nil_append] at this
  rw [show 46 + sid.length = 43 + 1 + sid.length + (0 + 1 + 1) by omega]
  exact this

theorem clientHello_roundtrip_witness :
    (samplePre.length = 43 ∧ samplePre[0]? = some 0x16 ∧ samplePre[5]? = some 0x01 ∧
      ([7, 8, 9] : List Byte).length ≤ 255 ∧
      2 * ([0x0035, 0x003c] : List Word16).length ≤ 65535) ∧
    IsTLSClientHello (clientHelloBuffer samplePre [7, 8, 9] [0x0035, 0x003c] [0xff]) = true ∧
    GetCipherSuitesFromClientHello
      (clientHelloBuffer samplePre [7, 8, 9] [0x0035, 0x003c] [0xff])
      = .ok [0x0035, 0x003c] :=
  ⟨by decide, clientHello_roundtrip samplePre [7, 8, 9] [0x0035, 0x003c] [0xff]
    (by decide) (by decide) (by decide) (by decide) (by decide)⟩

/-- C3: when the buffer is not recognised as a ClientHello, or has at most 37
bytes, `GetCipherSuitesFromClientHello` returns the empty list. -/
theorem getCipherSuites_guard (b : List Byte)
    (h : IsTLSClientHello b = false ∨ b.length ≤ 37) :
    GetCipherSuitesFromClientHello b = .ok [] := by
  unfold GetCipherSuitesFromClientHello
  rcases h with h | h
  · simp [h]
  · simp [h]

theorem getCipherSuites_guard_witness :
    (IsTLSClientHello [0x16, 3, 1, 0, 0x2f, 0x01, 0, 0] = false ∨
      ([0x16, 3, 1, 0, 0x2f, 0x01, 0, 0] : List Byte).length ≤ 37) ∧
    GetCipherSuitesFromClientHello [0x16, 3, 1, 0, 0x2f, 0x01, 0, 0] = .ok [] :=
  ⟨Or.inr (by decide),
    getCipherSuites_guard [0x16, 3, 1, 0, 0x2f, 0x01, 0, 0] (Or.inr (by decide))⟩

/-- C4 (evaluation at the failing input): on the 38-byte buffer `shortHello`,
which passes `IsTLSClientHello` and the `len(payload) <= 37` guard, the read of
`payload[43]` is outside the buffer and `GetCipherSuitesFromClientHello`
aborts instead of returning a list. -/
theorem getCipherSuites_faults_on_shortHello :
    shortHello.length = 38 ∧ IsTLSClientHello shortHello = true ∧
    GetCipherSuitesFromClientHello shortHello = .error .indexOutOfRange :=
  ⟨by decide, by decide, rfl⟩

/-- C5: for a buffer that passes the guard and is long enough for its declared
fields (`s` = byte 43, `n` = half of the big-endian 16-bit value at `44 + s`,
and `46 + s + 2n ≤ len`), the extractor returns exactly `n` values, the `i`-th
being the big-endian 16-bit value at `46 + s + 2i`; and a second such buffer
that agrees on byte 43 and on the bytes from `44 + s` up to `46 + s + 2n`
yields the same result, whatever its other bytes are. -/
theorem getCipherSuites_layout (b : List Byte) (hHello : IsTLSClientHello b = true)
    (hLen : 37 < b.length)
    (hFit : 46 + sessionIdLen b + 2 * declaredCount b ≤ b.length) :
    (∃ r, GetCipherSuitesFromClientHello b = .ok r ∧ r.length = declaredCount b ∧
      ∀ i, i < declaredCount b →
        r[i]?.map Fin.val = some (be16At b (46 + sessionIdLen b + 2 * i))) ∧
    (∀ b2 : List Byte, IsTLSClientHello b2 = true → 37 < b2.length →
      46 + sessionIdLen b + 2 * declaredCount b ≤ b2.length →
      b2.getD 43 0 = b.getD 43 0 →
      (∀ j, 44 + sessionIdLen b ≤ j → j < 46 + sessionIdLen b + 2 * declaredCount b →
        b2.getD j 0 = b.getD j 0) →
      GetCipherSuitesFromClientHello b2 = GetCipherSuitesFromClientHello b) := by
  have hb := getCipherSuites_unfold b hHello hLen (by omega)
  rw [readCiphers_range b _ _ _ hFit] at hb
  refine ⟨⟨_, hb, by simp, ?_⟩, ?_⟩
  · intro i hi
    simp [List.getElem?_map, List.getElem?_range hi, word16Of_val, be16At]
  · intro b2 hHello2 hLen2 hFit2 h43 hrest
    have hs : sessionIdLen b2 = sessionIdLen b := by
      unfold sessionIdLen
      rw [h43]
    have hn : declaredCount b2 = declaredCount b := by
      simp only [declaredCount, be16At, hs]
      rw [hrest _ (by omega) (by omega), hrest _ (by omega) (by omega)]
    have hb2 := getCipherSuites_unfold b2 hHello2 hLen2 (by omega)
    rw [hs, hn, readCiphers_range b2 _ _ _ hFit2] at hb2
    rw [hb, hb2]
    congr 2
    apply List.map_congr_left
    intro i hi
    have hi2 : i < declaredCount b := List.mem_range.mp hi
    rw [hrest _ (by omega) (by omega), hrest _ (by omega) (by omega)]

theorem getCipherSuites_layout_witness :
    (IsTLSClientHello sampleHello = true ∧ 37 < sampleHello.length ∧
      46 + sessionIdLen sampleHello + 2 * declaredCount sampleHello ≤ sampleHello.length) ∧
    ∃ r, GetCipherSuitesFromClientHello sampleHello = .ok r ∧
      r.length = declaredCount sampleHello ∧
      ∀ i, i < declaredCount sampleHello →
        r[i]?.map Fin.val
          = some (be16At sampleHello (46 + sessionIdLen sampleHello + 2 * i)) :=
  ⟨by decide,
    (getCipherSuites_layout sampleHello (by decide) (by decide) (by decide)).1⟩

/-! ## Message builders -/

theorem uint8_shr (x k : Nat) : uint8 (x >>> k) = uint8 (x / 2 ^ k) := by
  simp [uint8, Nat.shiftRight_eq_div_pow]

theorem uint8_and_ff (x : Nat) : uint8 (x &&& 0xff) = uint8 (x % 256) := by
  have h := Nat.and_pow_two_sub_one_eq_mod x 8
  simp only [uint8, Fin.mk.injEq]
  norm_num at h
  rw [h]

/-- The `switch tlsVersion` block that every builder repeats computes the wire
version tabulated by the specification. -/
theorem tlsTemp_val (v : Int) :
    (if v = 10 then TLS_VERSION_TLS_1_0
      else if v = 11 then TLS_VERSION_TLS_1_1
      else if v = 12 then TLS_VERSION_TLS_1_2
      else if v = 30 then TLS_VERSION_SSL_3_0
      else TLS_VERSION_SSL_3_0 : Word16).val = wireVersion v := by
  unfold wireVersion
  split_ifs <;> rfl

theorem setByte_bind {β : Type} (buf : List Byte) (i : Nat) (v : Byte)
    (F : List Byte → Except Fault β) (h : i < buf.length) :
    (setByte buf i v >>= F) = F (buf.set i v) := by
  simp only [setByte, h, if_true]
  rfl

theorem byteAt_bind {β : Type} (buf : List Byte) (i : Nat)
    (F : Byte → Except Fault β) (h : i < buf.length) :
    (byteAt buf i >>= F) = F (buf.getD i 0) := by
  simp only [byteAt, List.getElem?_eq_getElem h, List.getD_eq_getElem?_getD, Option.getD_some]
  rfl

theorem copyAt_bind {β : Type} (dst : List Byte) (off : Nat) (src : List Byte)
    (F : List Byte → Except Fault β) (h : off ≤ dst.length) :
    (copyAt dst off src >>= F)
      = F (dst.take off ++ src.take (min (dst.length - off) src.length)
          ++ dst.drop (off + min (dst.length - off) src.length)) := by
  simp only [copyAt, h, if_true]
  rfl

theorem copyAt_bind_fit {β : Type} (dst : List Byte) (off : Nat) (src : List Byte)
    (F : List Byte → Except Fault β) (h : off + src.length ≤ dst.length) :
    (copyAt dst off src >>= F)
      = F (dst.take off ++ src ++ dst.drop (off + src.length)) := by
  rw [copyAt_bind dst off src F (by omega),
    Nat.min_eq_right (by omega : src.length ≤ dst.length - off),
    List.take_of_length_le (Nat.le_refl _)]

theorem setByte_bind_fault {β : Type} (buf : List Byte) (i : Nat) (v : Byte)
    (F : List Byte → Except Fault β) (h : buf.length ≤ i) :
    (setByte buf i v >>= F) = .error .indexOutOfRange := by
  have hlt : ¬ i < buf.length := by omega
  simp only [setByte, hlt, if_false]
  rfl

/-- The 48 bytes written by `MkServerHello`. -/
theorem MkServerHello_eq (v : Int) (c : Word16) (t : Int) (rnd : List Byte)
    (h : rnd.length = 28) :
    MkServerHello v c t rnd
      = .ok ([0x16, uint8 (wireVersion v / 256), uint8 (wireVersion v % 256),
              0x53, 0x02, 0x00, 0x00, 0x31,
              uint8 (wireVersion v / 256), uint8 (wireVersion v % 256)]
          ++ be32 (t % 4294967296).toNat ++ rnd ++ [0x00] ++ be16 c.val
          ++ [0x00, 0x00, 0x00]) := by
  simp (disch := (simp only [List.length_cons, List.length_nil, List.length_append, h]; omega)) only
    [MkServerHello, setByte_bind, byteAt_bind, copyAt_bind_fit, pure, Except.pure,
      makeBytes, List.replicate_succ, List.replicate_zero, List.set_cons_zero,
      List.set_cons_succ, List.getD_cons_succ, List.getD_cons_zero, List.take_succ_cons,
      List.take_zero, List.drop_succ_cons, List.drop_zero, List.cons_append, List.nil_append,
      List.set_append_right, h, Nat.reduceAdd, Nat.reduceSub]
  simp only [tlsTemp_val, uint8_shr, uint8_and_ff, be32, be16, List.cons_append, List.nil_append,
    List.append_assoc, Nat.reducePow, TLS_REC_TYPE_HANDSHAKE, TLS_HANDSHAKE_SERVER_HELLO]

/-- The 9 bytes written by `MkServerHelloDone`. -/
theorem MkServerHelloDone_eq (v : Int) :
    MkServerHelloDone v
      = .ok [0x16, uint8 (wireVersion v / 256), uint8 (wireVersion v % 256),
              0x00, 0x04, 0x0e, 0x00, 0x00, 0x00] := by
  simp (disch := (simp only [List.length_cons, List.length_nil]; omega)) only
    [MkServerHelloDone, setByte_bind, pure, Except.pure, makeBytes, List.replicate_succ,
      List.replicate_zero, List.set_cons_zero, List.set_cons_succ]
  simp only [tlsTemp_val, uint8_shr, uint8_and_ff, Nat.reducePow, TLS_REC_TYPE_HANDSHAKE,
    TLS_HANDSHAKE_SERVER_DONE]

/-- The 6 bytes written by `MkChangeChiperSpec`. -/
theorem MkChangeChiperSpec_eq (v : Int) :
    MkChangeChiperSpec v
      = .ok [0x14, uint8 (wireVersion v / 256), uint8 (wireVersion v % 256),
              0x00, 0x01, 0x01] := by
  simp (disch := (simp only [List.length_cons, List.length_nil]; omega)) only
    [MkChangeChiperSpec, setByte_bind, pure, Except.pure, makeBytes, List.replicate_succ,
      List.replicate_zero, List.set_cons_zero, List.set_cons_succ]
  simp only [tlsTemp_val, uint8_shr, uint8_and_ff, Nat.reducePow,
    TLS_REC_TYPE_CHANGE_CIPHER_SPEC]

theorem setByte_append_zeros (front : List Byte) (c : Byte) (k : Nat) (back : List Byte) :
    setByte (front ++ List.replicate (k + 1) 0 ++ back) front.length c
      = .ok ((front ++ [c]) ++ List.replicate k 0 ++ back) := by
  have hlt : front.length < (front ++ List.replicate (k + 1) 0 ++ back).length := by
    simp only [List.length_append, List.length_replicate]
    omega
  simp only [setByte, hlt, if_true, List.append_assoc]
  rw [List.set_append_right _ _ (Nat.le_refl _)]
  simp [List.replicate_succ]

/-- The certificate loop started at the end of `front`, over a buffer with
exactly `len(certData)` bytes left, replaces those bytes by `certData`. -/
theorem writeCert_append (cs : List Byte) :
    ∀ (front back : List Byte),
      writeCert (front ++ List.replicate cs.length 0 ++ back) front.length cs
        = .ok (front ++ cs ++ back) := by
  induction cs with
  | nil => intro front back; simp [writeCert]
  | cons c rest ih =>
    intro front back
    have hl : front.length + 1 = (front ++ [c]).length := by simp
    simp only [writeCert, List.length_cons, setByte_append_zeros, bind, Except.bind]
    rw [hl, ih]
    simp

/-- The bytes written by `MkServerCertificateExchange` for a certificate of at
most 65523 bytes. -/
theorem MkServerCertificateExchange_eq (v : Int) (certData : List Byte)
    (h : certData.length ≤ 65523) :
    MkServerCertificateExchange v certData
      = .ok ([0x16, uint8 (wireVersion v / 256), uint8 (wireVersion v % 256)]
          ++ be16 (7 + certData.length) ++ [0x0b] ++ be24 (certData.length + 3)
          ++ be24 certData.length ++ certData) := by
  have hcl : (uint16 certData.length).val = certData.length := Nat.mod_eq_of_lt (by omega)
  have hrl : (uint16 (7 + certData.length)).val = 7 + certData.length :=
    Nat.mod_eq_of_lt (by omega)
  have hal : (uint16 (5 + (7 + certData.length))).val = certData.length + 12 := by
    show (5 + (7 + certData.length)) % 65536 = _
    omega
  have hc3 : (uint16 (certData.length + 3)).val = certData.length + 3 :=
    Nat.mod_eq_of_lt (by omega)
  have hz1 : (certData.length + 3) / 65536 = 0 := by omega
  have hz2 : certData.length / 65536 = 0 := by omega
  have hw := writeCert_append certData
    ([0x16, uint8 (wireVersion v / 256), uint8 (wireVersion v % 256)]
          ++ be16 (7 + certData.length) ++ [0x0b] ++ be24 (certData.length + 3)
          ++ be24 certData.length) []
  simp only [be16, be24, hz1, hz2, List.append_nil, List.cons_append, List.nil_append,
    List.append_assoc, List.length_cons, List.length_nil, Nat.reduceAdd] at hw
  simp (disch := (simp only [List.length_cons, List.length_replicate]; omega)) only
    [MkServerCertificateExchange, hcl, hrl, hal, setByte_bind,
      makeBytes, List.replicate_succ, List.set_cons_zero, List.set_cons_succ]
  simp only [tlsTemp_val, hc3, uint8_shr, uint8_and_ff, be16, be24, hz1, hz2, List.cons_append,
    List.nil_append, List.append_assoc, Nat.reducePow, TLS_REC_TYPE_HANDSHAKE,
    TLS_HANDSHAKE_CERTIFICATE]
  exact hw

theorem copyAt_append (front mid back src : List Byte) (h : mid.length = src.length) :
    copyAt (front ++ mid ++ back) front.length src = .ok (front ++ src ++ back) := by
  have hle : front.length ≤ (front ++ mid ++ back).length := by
    simp only [List.length_append]
    omega
  have hmin : min ((front ++ mid ++ back).length - front.length) src.length = src.length := by
    simp only [List.length_append]
    omega
  simp only [copyAt, hle, if_true, hmin, List.take_of_length_le (Nat.le_refl src.length)]
  have htake : List.take front.length (front ++ mid ++ back) = front := by
    rw [List.append_assoc, List.take_left]
  have hdrop : List.drop (front.length + src.length) (front ++ mid ++ back) = back := by
    have : front.length + src.length = (front ++ mid).length := by
      simp only [List.length_append, h]
    rw [this, List.drop_left]
  rw [htake, hdrop]

theorem foldl_length_eq (ps : List (List Byte)) :
    ∀ a : Nat, ps.foldl (fun acc p => acc + p.length) a = a + ps.flatten.length := by
  induction ps with
  | nil => intro a; simp
  | cons p rest ih =>
    intro a
    simp only [List.foldl_cons, ih, List.flatten_cons, List.length_append]
    omega

/-- The copy loop started at the end of `front`, over a buffer with exactly
the total packet length left, appends the packets in order. -/
theorem copyPackets_append (ps : List (List Byte)) :
    ∀ front : List Byte,
      copyPackets (front ++ List.replicate ps.flatten.length 0) front.length ps
        = .ok (front ++ ps.flatten) := by
  induction ps with
  | nil => intro front; simp [copyPackets]
  | cons p rest ih =>
    intro front
    have hsplit : front ++ List.replicate (p :: rest).flatten.length 0
        = front ++ List.replicate p.length 0 ++ List.replicate rest.flatten.length 0 := by
      simp only [List.flatten_cons, List.length_append, List.replicate_add,
        List.append_assoc]
    have hl : front.length + p.length = (front ++ p).length := by simp
    rw [hsplit]
    simp only [copyPackets, copyAt_append front _ _ p (List.length_replicate _ _), bind,
      Except.bind]
    rw [hl, ih]
    simp

/-- The hash input built by `MkServerFinished` is the in-order concatenation of
the transcript buffers; building it never aborts. -/
theorem finishedDataBuf_eq (ps : List (List Byte)) :
    finishedDataBuf ps = .ok ps.flatten := by
  have h := copyPackets_append ps []
  simp only [List.nil_append, List.length_nil] at h
  simp only [finishedDataBuf, makeBytes, foldl_length_eq, Nat.zero_add, h]

theorem finishedDigest_ok (sha1Sum sha256Sum : List Byte → List Byte) (c : Word16)
    (dataBuf : List Byte) :
    ∃ d, finishedDigest sha1Sum sha256Sum c dataBuf = .ok d := by
  unfold finishedDigest
  simp only [copyAt, Nat.zero_le, if_true]
  split_ifs <;> exact ⟨_, rfl⟩

/-- The 4 bytes written by `MkServerFinished` for a supported suite. -/
theorem MkServerFinished_eq (sha1Sum sha256Sum : List Byte → List Byte) (v : Int)
    (c : Word16) (key : List Byte) (ps : List (List Byte))
    (hc : SupportedSuite c) :
    MkServerFinished sha1Sum sha256Sum v c key ps
      = .ok [0x16, uint8 (wireVersion v / 256), uint8 (wireVersion v % 256), 0x00] := by
  have hguard : ¬ (c ≠ TLS_CIPHER_SUITE_RSA_WITH_AES_128_CBC_SHA ∧
      c ≠ TLS_CIPHER_SUITE_RSA_WITH_AES_256_CBC_SHA ∧
      c ≠ TLS_CIPHER_SUITE_RSA_WITH_AES_128_CBC_SHA256 ∧
      c ≠ TLS_CIPHER_SUITE_RSA_WITH_AES_256_CBC_SHA256) := by
    rintro ⟨h1, h2, h3, h4⟩
    unfold SupportedSuite at hc
    rcases hc with hc | hc | hc | hc <;> contradiction
  obtain ⟨d, hd⟩ := finishedDigest_ok sha1Sum sha256Sum c ps.flatten
  simp only [MkServerFinished, hguard, if_false, finishedDataBuf_eq, bind, Except.bind, hd,
    tlsTemp_val]
  simp [makeBytes, setByte, bind, Except.bind, pure, Except.pure, uint8_shr, uint8_and_ff,
    TLS_REC_TYPE_HANDSHAKE]

theorem wireVersion_lt (v : Int) : wireVersion v < 65536 := by
  unfold wireVersion
  split_ifs <;> decide

theorem be16_val (x : Nat) (h : x < 65536) :
    (uint8 (x / 256)).val * 256 + (uint8 (x % 256)).val = x := by
  simp only [uint8]
  omega

/-- C6: for every version selector, each builder writes at bytes 1-2 the
big-endian wire version the specification tabulates (0x0301, 0x0302, 0x0303,
0x0300 for the selectors 10, 11, 12, 30 and 0x0300 for every other integer),
so all five builders agree. -/
theorem builders_version_field (sha1Sum sha256Sum : List Byte → List Byte) (v : Int)
    (c cf : Word16) (t : Int) (rnd certData key : List Byte) (ps : List (List Byte))
    (hrnd : rnd.length = 28) (hcert : certData.length ≤ 65523) (hcf : SupportedSuite cf) :
    (∃ out, MkServerHello v c t rnd = .ok out ∧ be16At out 1 = wireVersion v) ∧
    (∃ out, MkServerCertificateExchange v certData = .ok out ∧
      be16At out 1 = wireVersion v) ∧
    (∃ out, MkServerHelloDone v = .ok out ∧ be16At out 1 = wireVersion v) ∧
    (∃ out, MkChangeChiperSpec v = .ok out ∧ be16At out 1 = wireVersion v) ∧
    (∃ out, MkServerFinished sha1Sum sha256Sum v cf key ps = .ok out ∧
      be16At out 1 = wireVersion v) ∧
    (v = 10 → wireVersion v = 0x0301) ∧ (v = 11 → wireVersion v = 0x0302) ∧
    (v = 12 → wireVersion v = 0x0303) ∧ (v = 30 → wireVersion v = 0x0300) ∧
    (v ≠ 10 → v ≠ 11 → v ≠ 12 → v ≠ 30 → wireVersion v = 0x0300) ∧
    (wireVersion v = 0x0300 ∨ wireVersion v = 0x0301 ∨ wireVersion v = 0x0302 ∨
      wireVersion v = 0x0303) := by
  have hw := be16_val (wireVersion v) (wireVersion_lt v)
  refine ⟨⟨_, MkServerHello_eq v c t rnd hrnd, ?_⟩,
    ⟨_, MkServerCertificateExchange_eq v certData hcert, ?_⟩,
    ⟨_, MkServerHelloDone_eq v, ?_⟩, ⟨_, MkChangeChiperSpec_eq v, ?_⟩,
    ⟨_, MkServerFinished_eq sha1Sum sha256Sum v cf key ps hcf, ?_⟩, ?_, ?_, ?_, ?_, ?_, ?_⟩
  · simpa [be16At] using hw
  · simpa [be16At] using hw
  · simpa [be16At] using hw
  · simpa [be16At] using hw
  · simpa [be16At] using hw
  · intro h; subst h; rfl
  · intro h; subst h; rfl
  · intro h; subst h; rfl
  · intro h; subst h; rfl
  · intro h1 h2 h3 h4; simp [wireVersion, h1, h2, h3, h4]
  · unfold wireVersion
    split_ifs <;> simp

theorem builders_version_field_witness :
    (sampleRnd.length = 28 ∧ ([1, 2, 3] : List Byte).length ≤ 65523 ∧
      SupportedSuite 0x003c) ∧
    (∃ out, MkServerHello 11 0x0035 1700000000 sampleRnd = .ok out ∧
      be16At out 1 = wireVersion 11) ∧
    (∃ out, MkServerCertificateExchange 11 [1, 2, 3] = .ok out ∧
      be16At out 1 = wireVersion 11) ∧
    (∃ out, MkServerHelloDone 11 = .ok out ∧ be16At out 1 = wireVersion 11) ∧
    (∃ out, MkChangeChiperSpec 11 = .ok out ∧ be16At out 1 = wireVersion 11) ∧
    (∃ out, MkServerFinished sampleHash sampleHash 11 0x003c [] [[1], [2, 3]] = .ok out ∧
      be16At out 1 = wireVersion 11) :=
  have h := builders_version_field sampleHash sampleHash 11 0x0035 0x003c 1700000000
    sampleRnd [1, 2, 3] [] [[1], [2, 3]] (by decide) (by decide) (by decide)
  ⟨by decide, h.1, h.2.1, h.2.2.1, h.2.2.2.1, h.2.2.2.2.1⟩

theorem getElem?_append_offset (front tail : List Byte) (n k : Nat) (h : front.length = n) :
    (front ++ tail)[n + k]? = tail[k]? := by
  subst h
  rw [List.getElem?_append_right (by omega)]
  simp

theorem getD_append_offset (front tail : List Byte) (n k : Nat) (h : front.length = n) :
    (front ++ tail).getD (n + k) 0 = tail.getD k 0 := by
  simp only [List.getD_eq_getElem?_getD, getElem?_append_offset front tail n k h]

/-- The output of `MkServerHello`, split after its first 42 bytes. -/
theorem MkServerHello_split (v : Int) (c : Word16) (t : Int) (rnd : List Byte)
    (hrnd : rnd.length = 28) :
    ∃ front : List Byte, front.length = 42 ∧
      MkServerHello v c t rnd
        = .ok (front ++ [0x00, uint8 (c.val / 256), uint8 (c.val % 256), 0x00, 0x00, 0x00]) := by
  refine ⟨[0x16, uint8 (wireVersion v / 256), uint8 (wireVersion v % 256),
              0x53, 0x02, 0x00, 0x00, 0x31,
              uint8 (wireVersion v / 256), uint8 (wireVersion v % 256)]
          ++ be32 (t % 4294967296).toNat ++ rnd, ?_, ?_⟩
  · simp [be32, hrnd]
  · rw [MkServerHello_eq v c t rnd hrnd]
    simp [be16]

/-- C7: `MkServerHello` returns exactly 48 bytes; bytes 43-44 hold the
requested cipher suite in big-endian, bytes 1-2 and bytes 8-9 both hold the
resolved wire version, and bytes 42, 45, 46 and 47 are zero. -/
theorem MkServerHello_layout (v : Int) (c : Word16) (t : Int) (rnd : List Byte)
    (hrnd : rnd.length = 28) :
    ∃ out, MkServerHello v c t rnd = .ok out ∧ out.length = 48 ∧
      be16At out 43 = c.val ∧ be16At out 1 = wireVersion v ∧ be16At out 8 = wireVersion v ∧
      out[42]? = some 0 ∧ out[45]? = some 0 ∧ out[46]? = some 0 ∧ out[47]? = some 0 := by
  have hw := be16_val (wireVersion v) (wireVersion_lt v)
  have hc := be16_val c.val c.isLt
  obtain ⟨front, hfront, hsplit⟩ := MkServerHello_split v c t rnd hrnd
  have heq := MkServerHello_eq v c t rnd hrnd
  have hsame := heq.symm.trans hsplit
  injection hsame with hsame
  refine ⟨_, heq, ?_, ?_, ?_, ?_, ?_, ?_, ?_, ?_⟩
  · simp [be32, be16, hrnd]
  · rw [hsame]
    unfold be16At
    rw [getD_append_offset front _ 42 1 hfront, getD_append_offset front _ 42 2 hfront]
    simpa using hc
  · simpa [be16At] using hw
  · simpa [be16At] using hw
  · rw [hsame]
    exact getElem?_append_offset front _ 42 0 hfront
  · rw [hsame]
    exact getElem?_append_offset front _ 42 3 hfront
  · rw [hsame]
    exact getElem?_append_offset front _ 42 4 hfront
  · rw [hsame]
    exact getElem?_append_offset front _ 42 5 hfront

theorem MkServerHello_layout_witness :
    sampleRnd.length = 28 ∧
    ∃ out, MkServerHello 12 0x0035 1700000000 sampleRnd = .ok out ∧ out.length = 48 ∧
      be16At out 43 = (0x0035 : Word16).val ∧ be16At out 1 = wireVersion 12 ∧
      be16At out 8 = wireVersion 12 ∧
      out[42]? = some 0 ∧ out[45]? = some 0 ∧ out[46]? = some 0 ∧ out[47]? = some 0 :=
  ⟨by decide, MkServerHello_layout 12 0x0035 1700000000 sampleRnd (by decide)⟩

/-- C8 (evaluation at the failing input): in the record `MkServerHello` builds
for TLS 1.2 and suite 0x002f, byte 0 is 0x16 but bytes 3-4 hold 0x53, 0x02
(big-endian 0x5302, not 0x0031) and byte 5 is 0x00 (not the ServerHello type
0x02): the length field takes one byte and the handshake header starts at
byte 4. -/
theorem MkServerHello_framing_at_sample :
    ∃ out, MkServerHello 12 0x002f 1700000000 sampleRnd = .ok out ∧
      out[0]? = some 0x16 ∧ out[3]? = some 0x53 ∧ out[4]? = some 0x02 ∧
      be16At out 3 = 0x5302 ∧ be16At out 3 ≠ 0x0031 ∧
      out[5]? = some 0x00 ∧ out[5]? ≠ some 0x02 :=
  ⟨_, rfl, by decide, by decide, by decide, by decide, by decide, by decide, by decide⟩

/-- C9 (evaluation at the failing input): the record `MkServerHello` builds for
TLS 1.2 and suite 0x002f has 48 bytes, hence a 43-byte body, while the
big-endian value at bytes 3-4 is 0x5302 = 21250. -/
theorem MkServerHello_length_field_at_sample :
    ∃ out, MkServerHello 12 0x002f 1700000000 sampleRnd = .ok out ∧
      out.length - 5 = 43 ∧ be16At out 3 = 21250 ∧ be16At out 3 ≠ out.length - 5 :=
  ⟨_, rfl, by decide, by decide, by decide⟩

/-- The three other record builders write at bytes 3-4 the exact length of the
record body (the output length minus the 5-byte header). -/
theorem length_field_exact (v : Int) (certData : List Byte)
    (hcert : certData.length ≤ 65523) :
    (∃ out, MkServerCertificateExchange v certData = .ok out ∧
      be16At out 3 = out.length - 5) ∧
    (∃ out, MkServerHelloDone v = .ok out ∧ be16At out 3 = out.length - 5) ∧
    (∃ out, MkChangeChiperSpec v = .ok out ∧ be16At out 3 = out.length - 5) := by
  have hr := be16_val (7 + certData.length) (by omega)
  refine ⟨⟨_, MkServerCertificateExchange_eq v certData hcert, ?_⟩,
    ⟨_, MkServerHelloDone_eq v, ?_⟩, ⟨_, MkChangeChiperSpec_eq v, ?_⟩⟩
  · simp only [be16At, be16, be24]
    simp
    omega
  · simp [be16At]
    rfl
  · simp [be16At]

/-- C10: for a certificate of `n ≤ 65523` bytes, `MkServerCertificateExchange`
returns exactly 0x16, the two resolved version bytes, the 2-byte big-endian
value `7 + n`, 0x0b, the 3-byte big-endian value `n + 3`, the 3-byte big-endian
value `n`, and then the certificate bytes unchanged; the bytes from offset 12
on are the certificate and the output has `12 + n` bytes. -/
theorem MkServerCertificateExchange_layout (v : Int) (certData : List Byte)
    (hcert : certData.length ≤ 65523) :
    ∃ out, MkServerCertificateExchange v certData = .ok out ∧
      out = [0x16] ++ be16 (wireVersion v) ++ be16 (7 + certData.length) ++ [0x0b]
          ++ be24 (certData.length + 3) ++ be24 certData.length ++ certData ∧
      out.drop 12 = certData ∧ out.length = 12 + certData.length := by
  refine ⟨_, MkServerCertificateExchange_eq v certData hcert, ?_, ?_, ?_⟩
  · simp [be16]
  · simp [be16, be24]
  · simp [be16, be24]
    omega

theorem MkServerCertificateExchange_layout_witness :
    ([0xde, 0xad, 0xbe, 0xef] : List Byte).length ≤ 65523 ∧
    ∃ out, MkServerCertificateExchange 10 [0xde, 0xad, 0xbe, 0xef] = .ok out ∧
      out = [0x16] ++ be16 (wireVersion 10) ++ be16 (7 + 4) ++ [0x0b]
          ++ be24 (4 + 3) ++ be24 4 ++ [0xde, 0xad, 0xbe, 0xef] ∧
      out.drop 12 = [0xde, 0xad, 0xbe, 0xef] ∧ out.length = 12 + 4 :=
  ⟨by decide, MkServerCertificateExchange_layout 10 [0xde, 0xad, 0xbe, 0xef] (by decide)⟩

/-! ## Certificate builder: the 16-bit length arithmetic -/

/-- The certificate loop aborts as soon as it runs past the end of the buffer. -/
theorem writeCert_fault (cs : List Byte) :
    ∀ (buf : List Byte) (off : Nat), off ≤ buf.length → buf.length < off + cs.length →
      writeCert buf off cs = .error .indexOutOfRange := by
  induction cs with
  | nil => intro buf off h1 h2; simp at h2; omega
  | cons c rest ih =>
    intro buf off h1 h2
    by_cases hlt : off < buf.length
    · have hnext := ih (buf.set off c) (off + 1) (by simp; omega)
        (by simp only [List.length_set, List.length_cons] at h2 ⊢; omega)
      simp only [writeCert, setByte, hlt, if_true, bind, Except.bind, hnext]
    · simp only [writeCert, setByte, hlt, if_false, bind, Except.bind]

theorem certAllocSize_lt (n : Nat) : certAllocSize n < 65536 := by
  unfold certAllocSize
  exact (uint16 _).isLt

/-- For a certificate of 65524 bytes or more the builder aborts on a write
outside the buffer it allocated. -/
theorem MkServerCertificateExchange_fault (v : Int) (certData : List Byte)
    (h : 65524 ≤ certData.length) :
    MkServerCertificateExchange v certData = .error .indexOutOfRange := by
  have hsize := certAllocSize_lt certData.length
  unfold certAllocSize at hsize
  simp only [MkServerCertificateExchange]
  generalize (uint16 (5 + (uint16 (7 + (uint16 certData.length).val)).val)).val = L at hsize ⊢
  by_cases hL : L < 12
  · interval_cases L <;>
      simp (disch := (simp only [List.length_cons, List.length_nil]; omega)) only
        [setByte_bind, setByte_bind_fault, makeBytes, List.replicate_succ, List.replicate_zero,
          List.set_cons_zero, List.set_cons_succ]
  · obtain ⟨k, rfl⟩ : ∃ k, L = k + 12 := ⟨L - 12, by omega⟩
    simp (disch := (simp only [List.length_cons, List.length_replicate]; omega)) only
      [setByte_bind, makeBytes, List.replicate_succ, List.set_cons_zero, List.set_cons_succ]
    apply writeCert_fault
    · simp only [List.length_cons, List.length_replicate]
      omega
    · simp only [List.length_cons, List.length_replicate]
      omega

/-- C11 (counterexample): on the 65524-byte certificate `longCert` the builder
aborts, so no output of length `12 + 65524` with `65524` at offsets 10-11 is
returned. -/
theorem MkServerCertificateExchange_longCert_fails :
    MkServerCertificateExchange 12 longCert = .error .indexOutOfRange ∧
    ¬ ∃ out, MkServerCertificateExchange 12 longCert = .ok out ∧
        out.length = 12 + longCert.length ∧ be16At out 10 = longCert.length := by
  have hlen : longCert.length = 65524 := List.length_replicate _ _
  have hf := MkServerCertificateExchange_fault 12 longCert (by omega)
  refine ⟨hf, ?_⟩
  rintro ⟨out, hout, _⟩
  rw [hf] at hout
  cases hout

/-- C11 (amended): for every certificate of at most 65523 bytes and every
version selector, the output of `MkServerCertificateExchange` has length
`12 + len(certData)` and the big-endian field at offsets 10-11 equals
`len(certData)`. -/
theorem MkServerCertificateExchange_length (v : Int) (certData : List Byte)
    (hcert : certData.length ≤ 65523) :
    ∃ out, MkServerCertificateExchange v certData = .ok out ∧
      out.length = 12 + certData.length ∧ be16At out 10 = certData.length := by
  have hn := be16_val certData.length (by omega)
  refine ⟨_, MkServerCertificateExchange_eq v certData hcert, ?_, ?_⟩
  · simp [be16, be24]
    omega
  · simpa [be16At, be16, be24] using hn

theorem MkServerCertificateExchange_length_witness :
    sampleCert.length ≤ 65523 ∧
    ∃ out, MkServerCertificateExchange 10 sampleCert = .ok out ∧
      out.length = 12 + sampleCert.length ∧ be16At out 10 = sampleCert.length :=
  ⟨by decide, MkServerCertificateExchange_length 10 sampleCert (by decide)⟩

/-- C12 (counterexample): the record built for the 4-byte certificate
`sampleCert` is 16 03 03 00 0b 0b 00 00 07 00 00 04 de ad be ef; what follows
its handshake header is 00 00 04 and the certificate, 7 bytes, which is not a
3-byte list length followed by a 3-byte entry length and the certificate. -/
theorem MkServerCertificateExchange_single_prefix_at_sample :
    MkServerCertificateExchange 12 sampleCert
      = .ok [0x16, 0x03, 0x03, 0x00, 0x0b, 0x0b, 0x00, 0x00, 0x07, 0x00, 0x00, 0x04,
              0xde, 0xad, 0xbe, 0xef] ∧
    ¬ ∃ out, MkServerCertificateExchange 12 sampleCert = .ok out ∧
        ∃ listLen, handshakeBody out
          = be24 listLen ++ be24 sampleCert.length ++ sampleCert := by
  have hout : MkServerCertificateExchange 12 sampleCert
      = .ok [0x16, 0x03, 0x03, 0x00, 0x0b, 0x0b, 0x00, 0x00, 0x07, 0x00, 0x00, 0x04,
              0xde, 0xad, 0xbe, 0xef] := rfl
  refine ⟨hout, ?_⟩
  rintro ⟨out, h, listLen, hbody⟩
  rw [hout] at h
  injection h with h
  subst h
  have hlen := congrArg List.length hbody
  simp [handshakeBody, be24, sampleCert] at hlen

/-- C12 (amended): for a certificate of `n ≤ 65523` bytes, the handshake
header of the record is 0x0b followed by the 3-byte length `n + 3`, and the
body of the Certificate message is a single 3-byte length equal to `n`
followed directly by the certificate bytes: `n + 3` bytes, one length prefix. -/
theorem MkServerCertificateExchange_body (v : Int) (certData : List Byte)
    (hcert : certData.length ≤ 65523) :
    ∃ out, MkServerCertificateExchange v certData = .ok out ∧
      (out.drop 5).take 4 = [0x0b] ++ be24 (certData.length + 3) ∧
      handshakeBody out = be24 certData.length ++ certData ∧
      (handshakeBody out).length = certData.length + 3 := by
  refine ⟨_, MkServerCertificateExchange_eq v certData hcert, ?_, ?_, ?_⟩
  · simp [be16, be24]
  · simp [handshakeBody, be16, be24]
  · simp [handshakeBody, be16, be24]

theorem MkServerCertificateExchange_body_witness :
    sampleCert.length ≤ 65523 ∧
    ∃ out, MkServerCertificateExchange 12 sampleCert = .ok out ∧
      (out.drop 5).take 4 = [0x0b] ++ be24 (sampleCert.length + 3) ∧
      handshakeBody out = be24 sampleCert.length ++ sampleCert ∧
      (handshakeBody out).length = sampleCert.length + 3 :=
  ⟨by decide, MkServerCertificateExchange_body 12 sampleCert (by decide)⟩

/-- C20: `MkServerCertificateExchange` returns a buffer exactly when
`len(certData) ≤ 65523`, in which case the allocation has `12 + len(certData)`
bytes; for 65524 bytes or more the 16-bit allocation size is smaller than
`12 + len(certData)` and the builder aborts on an out-of-range write. -/
theorem MkServerCertificateExchange_returns_iff (v : Int) (certData : List Byte) :
    ((∃ out, MkServerCertificateExchange v certData = .ok out) ↔
      certData.length ≤ 65523) ∧
    (certData.length ≤ 65523 → certAllocSize certData.length = 12 + certData.length) ∧
    (65524 ≤ certData.length →
      certAllocSize certData.length < 12 + certData.length ∧
      MkServerCertificateExchange v certData = .error .indexOutOfRange) := by
  refine ⟨⟨?_, fun h => ⟨_, MkServerCertificateExchange_eq v certData h⟩⟩, ?_, ?_⟩
  · rintro ⟨out, hout⟩
    by_contra hlt
    rw [MkServerCertificateExchange_fault v certData (by omega)] at hout
    cases hout
  · intro h
    simp only [certAllocSize, uint16]
    omega
  · intro h
    have := certAllocSize_lt certData.length
    exact ⟨by omega, MkServerCertificateExchange_fault v certData h⟩

/-! ## Fixed-shape builders -/

/-- C13: `MkServerHelloDone v` returns exactly the 9 bytes 0x16, the two
version bytes, 0x00, 0x04, 0x0e, 0x00, 0x00, 0x00; the output is determined by
the resolved version alone, so equal selectors give byte-identical output. -/
theorem MkServerHelloDone_bytes (v : Int) :
    MkServerHelloDone v
      = .ok ([0x16] ++ be16 (wireVersion v) ++ [0x00, 0x04, 0x0e, 0x00, 0x00, 0x00]) ∧
    (∃ out, MkServerHelloDone v = .ok out ∧ out.length = 9) ∧
    (∀ v2 : Int, wireVersion v2 = wireVersion v →
      MkServerHelloDone v2 = MkServerHelloDone v) := by
  refine ⟨?_, ⟨_, MkServerHelloDone_eq v, rfl⟩, ?_⟩
  · rw [MkServerHelloDone_eq]
    simp [be16]
  · intro v2 h
    rw [MkServerHelloDone_eq, MkServerHelloDone_eq, h]

/-- C14: `MkChangeChiperSpec v` returns exactly the 6 bytes 0x14, the two
version bytes, 0x00, 0x01, 0x01; the output is determined by the resolved
version alone, so equal selectors give byte-identical output. -/
theorem MkChangeChiperSpec_bytes (v : Int) :
    MkChangeChiperSpec v
      = .ok ([0x14] ++ be16 (wireVersion v) ++ [0x00, 0x01, 0x01]) ∧
    (∃ out, MkChangeChiperSpec v = .ok out ∧ out.length = 6) ∧
    (∀ v2 : Int, wireVersion v2 = wireVersion v →
      MkChangeChiperSpec v2 = MkChangeChiperSpec v) := by
  refine ⟨?_, ⟨_, MkChangeChiperSpec_eq v, rfl⟩, ?_⟩
  · rw [MkChangeChiperSpec_eq]
    simp [be16]
  · intro v2 h
    rw [MkChangeChiperSpec_eq, MkChangeChiperSpec_eq, h]

/-! ## Finished builder -/

theorem MkServerFinished_unsupported (sha1Sum sha256Sum : List Byte → List Byte) (v : Int)
    (c : Word16) (key : List Byte) (ps : List (List Byte)) (hc : ¬ SupportedSuite c) :
    MkServerFinished sha1Sum sha256Sum v c key ps = .ok [] := by
  have hguard : c ≠ TLS_CIPHER_SUITE_RSA_WITH_AES_128_CBC_SHA ∧
      c ≠ TLS_CIPHER_SUITE_RSA_WITH_AES_256_CBC_SHA ∧
      c ≠ TLS_CIPHER_SUITE_RSA_WITH_AES_128_CBC_SHA256 ∧
      c ≠ TLS_CIPHER_SUITE_RSA_WITH_AES_256_CBC_SHA256 := by
    unfold SupportedSuite at hc
    refine ⟨fun h => hc ?_, fun h => hc ?_, fun h => hc ?_, fun h => hc ?_⟩
    · exact Or.inl h
    · exact Or.inr (Or.inl h)
    · exact Or.inr (Or.inr (Or.inl h))
    · exact Or.inr (Or.inr (Or.inr h))
  unfold MkServerFinished
  rw [if_pos hguard]
  rfl

/-- C15: `MkServerFinished` returns the empty buffer exactly when the cipher
suite is none of 0x002f, 0x0035, 0x003c, 0x003d; for each of these four the
result is non-empty. -/
theorem MkServerFinished_empty_iff (sha1Sum sha256Sum : List Byte → List Byte) (v : Int)
    (c : Word16) (key : List Byte) (ps : List (List Byte)) :
    (MkServerFinished sha1Sum sha256Sum v c key ps = .ok [] ↔
      ¬ (c = 0x002f ∨ c = 0x0035 ∨ c = 0x003c ∨ c = 0x003d)) ∧
    ((c = 0x002f ∨ c = 0x0035 ∨ c = 0x003c ∨ c = 0x003d) →
      ∃ out, MkServerFinished sha1Sum sha256Sum v c key ps = .ok out ∧ out ≠ []) := by
  have hsup : (c = 0x002f ∨ c = 0x0035 ∨ c = 0x003c ∨ c = 0x003d) ↔ SupportedSuite c :=
    Iff.rfl
  rw [hsup]
  refine ⟨⟨fun h hc => ?_, MkServerFinished_unsupported sha1Sum sha256Sum v c key ps⟩,
    fun hc => ⟨_, MkServerFinished_eq sha1Sum sha256Sum v c key ps hc, by simp⟩⟩
  rw [MkServerFinished_eq sha1Sum sha256Sum v c key ps hc] at h
  injection h with h
  cases h

/-- C16: for a supported suite `MkServerFinished` returns exactly the 4 bytes
0x16, version-high, version-low, 0x00, whatever the pre-master key, the
transcript and the hash functions are. -/
theorem MkServerFinished_header_only (sha1Sum sha256Sum : List Byte → List Byte) (v : Int)
    (c : Word16) (key : List Byte) (ps : List (List Byte)) (hc : SupportedSuite c) :
    MkServerFinished sha1Sum sha256Sum v c key ps
      = .ok ([0x16] ++ be16 (wireVersion v) ++ [0x00]) ∧
    (∃ out, MkServerFinished sha1Sum sha256Sum v c key ps = .ok out ∧ out.length = 4) ∧
    (∀ (key2 : List Byte) (ps2 : List (List Byte)),
      MkServerFinished sha1Sum sha256Sum v c key2 ps2
        = MkServerFinished sha1Sum sha256Sum v c key ps) := by
  refine ⟨?_, ⟨_, MkServerFinished_eq sha1Sum sha256Sum v c key ps hc, rfl⟩, ?_⟩
  · rw [MkServerFinished_eq sha1Sum sha256Sum v c key ps hc]
    simp [be16]
  · intro key2 ps2
    rw [MkServerFinished_eq sha1Sum sha256Sum v c key ps hc,
      MkServerFinished_eq sha1Sum sha256Sum v c key2 ps2 hc]

theorem MkServerFinished_header_only_witness :
    SupportedSuite 0x003d ∧
    MkServerFinished sampleSha1 sampleSha256 12 0x003d [1, 2, 3] [[0x16, 3], [0x14]]
      = .ok ([0x16] ++ be16 (wireVersion 12) ++ [0x00]) ∧
    (∃ out, MkServerFinished sampleSha1 sampleSha256 12 0x003d [1, 2, 3] [[0x16, 3], [0x14]]
        = .ok out ∧ out.length = 4) ∧
    (∀ (key2 : List Byte) (ps2 : List (List Byte)),
      MkServerFinished sampleSha1 sampleSha256 12 0x003d key2 ps2
        = MkServerFinished sampleSha1 sampleSha256 12 0x003d [1, 2, 3] [[0x16, 3], [0x14]]) :=
  ⟨by decide, MkServerFinished_header_only sampleSha1 sampleSha256 12 0x003d [1, 2, 3]
    [[0x16, 3], [0x14]] (by decide)⟩

theorem copyAt_zero (dst src : List Byte) :
    ∃ r, copyAt dst 0 src = .ok r ∧ r.length = dst.length ∧
      (src.length = dst.length → r = src) := by
  have h0 : copyAt dst 0 src
      = .ok (dst.take 0 ++ src.take (min (dst.length - 0) src.length)
          ++ dst.drop (0 + min (dst.length - 0) src.length)) := by
    simp only [copyAt, Nat.zero_le, if_true]
  refine ⟨_, h0, ?_, ?_⟩
  · simp only [List.length_append, List.length_take, List.length_drop]
    omega
  · intro h
    simp [h]

/-- C17 (evaluation of the digest switch): for the suites 0x002f and 0x003c
the `case` clause has an empty body and the digest stays the empty slice,
whatever the transcript is; for 0x0035 the digest has 20 bytes (the SHA-1 sum)
and for 0x003d it has 32 bytes (the SHA-256 sum). -/
theorem finishedDigest_per_suite (sha1Sum sha256Sum : List Byte → List Byte)
    (ps : List (List Byte)) :
    finishedTranscriptDigest sha1Sum sha256Sum 0x002f ps = .ok [] ∧
    finishedTranscriptDigest sha1Sum sha256Sum 0x003c ps = .ok [] ∧
    (∃ d, finishedTranscriptDigest sha1Sum sha256Sum 0x0035 ps = .ok d ∧ d.length = 20 ∧
      ((sha1Sum ps.flatten).length = 20 → d = sha1Sum ps.flatten)) ∧
    (∃ d, finishedTranscriptDigest sha1Sum sha256Sum 0x003d ps = .ok d ∧ d.length = 32 ∧
      ((sha256Sum ps.flatten).length = 32 → d = sha256Sum ps.flatten)) := by
  obtain ⟨d1, h1, hl1, he1⟩ := copyAt_zero (makeBytes 20) (sha1Sum ps.flatten)
  obtain ⟨d2, h2, hl2, he2⟩ := copyAt_zero (makeBytes 32) (sha256Sum ps.flatten)
  have hm20 : (makeBytes 20).length = 20 := List.length_replicate _ _
  have hm32 : (makeBytes 32).length = 32 := List.length_replicate _ _
  have e1 : finishedDigest sha1Sum sha256Sum 0x0035 ps.flatten
      = copyAt (makeBytes 20) 0 (sha1Sum ps.flatten) := rfl
  have e2 : finishedDigest sha1Sum sha256Sum 0x003d ps.flatten
      = copyAt (makeBytes 32) 0 (sha256Sum ps.flatten) := rfl
  simp only [finishedTranscriptDigest, finishedDataBuf_eq, bind, Except.bind]
  refine ⟨rfl, rfl, ⟨d1, e1.trans h1, by omega, fun h => he1 (by omega)⟩,
    ⟨d2, e2.trans h2, by omega, fun h => he2 (by omega)⟩⟩

/-- C18: the hash input `MkServerFinished` builds is the in-order
concatenation of the transcript buffers: its length is the sum of their
lengths, and buffer `k` occupies the positions that start at the sum of the
lengths of the buffers before it. -/
theorem finishedDataBuf_concat (ps : List (List Byte)) :
    ∃ dataBuf, finishedDataBuf ps = .ok dataBuf ∧ dataBuf = ps.flatten ∧
      dataBuf.length = (ps.map List.length).sum ∧
      ∀ (k : Nat) (hk : k < ps.length),
        (dataBuf.drop ((ps.map List.length).take k).sum).take (ps[k]).length = ps[k] := by
  refine ⟨_, finishedDataBuf_eq ps, rfl, List.length_flatten ps, ?_⟩
  intro k hk
  rw [List.drop_sum_flatten, List.drop_eq_getElem_cons hk, List.flatten_cons,
    List.take_left]

/-- C19: `MkServerHello` places the big-endian encoding of `t mod 2^32` at
bytes 10-13 and the 28 random bytes, in order, at bytes 14-41; the first 10
bytes and the last 6 bytes are the same for every clock value and every random
block. -/
theorem MkServerHello_time_random (v : Int) (c : Word16) (t : Int) (rnd : List Byte)
    (hrnd : rnd.length = 28) :
    ∃ out, MkServerHello v c t rnd = .ok out ∧
      (out.drop 10).take 4 = be32 (t % 4294967296).toNat ∧
      (out.drop 14).take 28 = rnd ∧
      ∀ (t2 : Int) (rnd2 : List Byte), rnd2.length = 28 →
        ∃ out2, MkServerHello v c t2 rnd2 = .ok out2 ∧
          out2.take 10 = out.take 10 ∧ out2.drop 42 = out.drop 42 := by
  have hdrop : ∀ (r tail : List Byte), r.length = 28 → List.drop 28 (r ++ tail) = tail := by
    intro r tail h
    rw [← h, List.drop_left]
  have htake : ∀ (r tail : List Byte), r.length = 28 → List.take 28 (r ++ tail) = r := by
    intro r tail h
    rw [← h, List.take_left]
  refine ⟨_, MkServerHello_eq v c t rnd hrnd, ?_, ?_, ?_⟩
  · simp [be32]
  · simp [be32, htake rnd _ hrnd]
  · intro t2 rnd2 hrnd2
    refine ⟨_, MkServerHello_eq v c t2 rnd2 hrnd2, ?_, ?_⟩
    · simp [be32]
    · simp [be32, hdrop rnd _ hrnd, hdrop rnd2 _ hrnd2]

theorem MkServerHello_time_random_witness :
    sampleRnd.length = 28 ∧
    ∃ out, MkServerHello 12 0x0035 1700000000 sampleRnd = .ok out ∧
      (out.drop 10).take 4 = be32 ((1700000000 : Int) % 4294967296).toNat ∧
      (out.drop 14).take 28 = sampleRnd ∧
      ∀ (t2 : Int) (rnd2 : List Byte), rnd2.length = 28 →
        ∃ out2, MkServerHello 12 0x0035 t2 rnd2 = .ok out2 ∧
          out2.take 10 = out.take 10 ∧ out2.drop 42 = out.drop 42 :=
  ⟨by decide, MkServerHello_time_random 12 0x0035 1700000000 sampleRnd (by decide)⟩

end Cherry.TLS

namespace Cherry.Reqtraps

/-! ## Request router -/

theorem scanMethodPart_of_text (m : List Char) :
    ∀ (rest : List Char) (spaceNr : Nat) (acc : List Char),
      (∀ c ∈ m, c ≠ '\n' ∧ c ≠ '\r') → spaceNr + m.count ' ' ≤ 1 →
      (rest = [] ∨ ∃ c tl, rest = c :: tl ∧
        (c = '\n' ∨ c = '\r' ∨ (c = ' ' ∧ spaceNr + m.count ' ' = 1))) →
      scanMethodPart (m ++ rest) spaceNr acc = acc ++ m := by
  induction m with
  | nil =>
    intro rest spaceNr acc _ hcount hrest
    rcases hrest with rfl | ⟨c, tl, rfl, hc⟩
    · simp [scanMethodPart]
    · rcases hc with rfl | rfl | ⟨rfl, hsp⟩
      · simp [scanMethodPart]
      · simp [scanMethodPart]
      · simp only [List.count_nil, Nat.add_zero] at hsp
        simp [scanMethodPart, hsp]
  | cons a m ih =>
    intro rest spaceNr acc hm hcount hrest
    have ha := hm a (List.mem_cons_self a m)
    have hm2 : ∀ c ∈ m, c ≠ '\n' ∧ c ≠ '\r' := fun c hc => hm c (List.mem_cons_of_mem a hc)
    by_cases hsp : a = ' '
    · subst hsp
      simp only [List.count_cons_self] at hcount hrest
      have h0 : spaceNr = 0 := by omega
      subst h0
      have hnext := ih rest 1 (acc ++ [' ']) hm2 (by omega)
        (by rcases hrest with h | ⟨c, tl, h, hc⟩
            · exact Or.inl h
            · refine Or.inr ⟨c, tl, h, ?_⟩
              rcases hc with h | h | ⟨h, h2⟩
              · exact Or.inl h
              · exact Or.inr (Or.inl h)
              · exact Or.inr (Or.inr ⟨h, by omega⟩))
      simp only [List.cons_append, scanMethodPart, if_true, Nat.zero_add]
      simp [hnext]
    · have hc1 : (a :: m).count ' ' = m.count ' ' := by
        simp [List.count_cons, hsp]
      rw [hc1] at hcount hrest
      have hne : spaceNr ≠ 2 := by omega
      have hnext := ih rest spaceNr (acc ++ [a]) hm2 hcount hrest
      simp only [List.cons_append, scanMethodPart, hsp, if_false, ha.1, ha.2, hne, or_self]
      simp [hnext]

theorem scanMethodPart_text_exists (payload : List Char) :
    ∀ spaceNr : Nat, spaceNr ≤ 1 →
      ∃ m rest, payload = m ++ rest ∧
        (∀ c ∈ m, c ≠ '\n' ∧ c ≠ '\r') ∧ spaceNr + m.count ' ' ≤ 1 ∧
        (rest = [] ∨ ∃ c tl, rest = c :: tl ∧
          (c = '\n' ∨ c = '\r' ∨ (c = ' ' ∧ spaceNr + m.count ' ' = 1))) := by
  induction payload with
  | nil => intro spaceNr h; exact ⟨[], [], rfl, by simp, by simpa using h, Or.inl rfl⟩
  | cons a tl ih =>
    intro spaceNr h
    by_cases hstop : a = '\n' ∨ a = '\r' ∨ (a = ' ' ∧ spaceNr = 1)
    · refine ⟨[], a :: tl, rfl, by simp, by simpa using h, Or.inr ⟨a, tl, rfl, ?_⟩⟩
      rcases hstop with h1 | h1 | ⟨h1, h2⟩
      · exact Or.inl h1
      · exact Or.inr (Or.inl h1)
      · exact Or.inr (Or.inr ⟨h1, by simpa using h2⟩)
    · have hn : a ≠ '\n' := fun e => hstop (Or.inl e)
      have hr : a ≠ '\r' := fun e => hstop (Or.inr (Or.inl e))
      by_cases hsp : a = ' '
      · have h0 : spaceNr = 0 := by
          by_contra hne
          exact hstop (Or.inr (Or.inr ⟨hsp, by omega⟩))
        subst h0
        obtain ⟨m, rest, hpay, hm, hcount, hrest⟩ := ih 1 (Nat.le_refl 1)
        refine ⟨a :: m, rest, by simp [hpay], ?_, ?_, ?_⟩
        · intro c hc
          rcases List.mem_cons.mp hc with rfl | hc
          · exact ⟨hn, hr⟩
          · exact hm c hc
        · subst hsp
          simp only [List.count_cons_self]
          omega
        · subst hsp
          simp only [List.count_cons_self]
          rcases hrest with h1 | ⟨c, tl2, h1, hc⟩
          · exact Or.inl h1
          · refine Or.inr ⟨c, tl2, h1, ?_⟩
            rcases hc with h2 | h2 | ⟨h2, h3⟩
            · exact Or.inl h2
            · exact Or.inr (Or.inl h2)
            · exact Or.inr (Or.inr ⟨h2, by omega⟩)
      · obtain ⟨m, rest, hpay, hm, hcount, hrest⟩ := ih spaceNr h
        have hc1 : (a :: m).count ' ' = m.count ' ' := by
          simp [List.count_cons, hsp]
        refine ⟨a :: m, rest, by simp [hpay], ?_, by rw [hc1]; exact hcount, ?_⟩
        · intro c hc
          rcases List.mem_cons.mp hc with rfl | hc
          · exact ⟨hn, hr⟩
          · exact hm c hc
        · rw [hc1]
          exact hrest


theorem scanMethodPart_eq_of_isText (m payload : List Char)
    (h : IsMethodPathText m payload) : scanMethodPart payload 0 [] = m := by
  obtain ⟨rest, rfl, hm, hcount, hrest⟩ := h
  have := scanMethodPart_of_text m rest 0 [] hm (by omega)
    (by simpa only [Nat.zero_add] using hrest)
  simpa using this

theorem scanMethodPart_isText (payload : List Char) :
    IsMethodPathText (scanMethodPart payload 0 []) payload := by
  obtain ⟨m, rest, hpay, hm, hcount, hrest⟩ := scanMethodPart_text_exists payload 0 (by omega)
  have htext : IsMethodPathText m payload :=
    ⟨rest, hpay, hm, by omega, by simpa only [Nat.zero_add] using hrest⟩
  rw [scanMethodPart_eq_of_isText m payload htext]
  exact htext

theorem selectRoute_none (s : List Char)
    (h : ∀ pattern ∈ routePatterns, HasPrefix s pattern = false) :
    selectRoute s = .BadAssError_Handle := by
  simp only [routePatterns, List.mem_cons, List.mem_singleton, List.not_mem_nil, or_false,
    forall_eq_or_imp, forall_eq] at h
  obtain ⟨h1, h2, h3, h4, h5, h6, h7, h8, h9, h10⟩ := h
  simp only [selectRoute, h1, h2, h3, h4, h5, h6, h7, h8, h9, h10, Bool.false_eq_true, if_false]

/-- C21: `GetRequestTrap` computes the method-and-path text of the payload (its
characters before the second space or the first CR or LF), selects the route
from that text alone, so two payloads with the same method-and-path text get
the same route, and a payload whose method-and-path text followed by the end
marker `$` starts with none of the ten route patterns gets the error handler. -/
theorem GetRequestTrap_by_method_path :
    (∀ payload : List Char, IsMethodPathText (scanMethodPart payload 0 []) payload) ∧
    (∀ m p1 p2 : List Char, IsMethodPathText m p1 → IsMethodPathText m p2 →
      GetRequestTrap p1 = GetRequestTrap p2) ∧
    (∀ m payload : List Char, IsMethodPathText m payload →
      (∀ pattern ∈ routePatterns, pattern.toList.isPrefixOf (m ++ ['$']) = false) →
      GetRequestTrap payload = .BadAssError_Handle) := by
  refine ⟨scanMethodPart_isText, ?_, ?_⟩
  · intro m p1 p2 h1 h2
    simp only [GetRequestTrap, scanMethodPart_eq_of_isText m p1 h1,
      scanMethodPart_eq_of_isText m p2 h2]
  · intro m payload hm hnone
    simp only [GetRequestTrap, scanMethodPart_eq_of_isText m payload hm]
    exact selectRoute_none _ hnone

/-- Sample runs of the router. -/
theorem GetRequestTrap_samples :
    GetRequestTrap "GET /join HTTP/1.1\r\nHost: x\r\n\r\n".toList = .GetJoin_Handle ∧
    GetRequestTrap "GET /join".toList = .GetJoin_Handle ∧
    GetRequestTrap "GET /top&room=a HTTP/1.1\r\n".toList = .GetTop_Handle ∧
    GetRequestTrap "POST /banner&room=a\nx".toList = .PostBanner_Handle ∧
    GetRequestTrap "POST /find HTTP/1.0".toList = .PostFind_Handle ∧
    GetRequestTrap "GET /joinx HTTP/1.1".toList = .BadAssError_Handle ∧
    GetRequestTrap "GET /top HTTP/1.1".toList = .BadAssError_Handle ∧
    GetRequestTrap "".toList = .BadAssError_Handle := by
  decide

end Cherry.Reqtraps
